import Mathlib

/-!
Shallow embedding of `src/structures/APIMessage.js` (the message-normalization
core of a discord.js fork).  JavaScript strings are modelled as `List Char`,
JavaScript `undefined`/`null` and key-absence are modelled with `Option`
(key-present-with-`undefined` content is a distinct constructor, because
`Object.assign` copies such keys).  External collaborator functions that are
part of the repository but not under `src/` are modelled from the spec and
carry a doc comment saying so.
-/

namespace APIMsg

/-- JavaScript strings, modelled as lists of characters. -/
abbrev JStr := List Char

/-- A resolvable file source: a string path/URL, an in-memory buffer, or a
stream-like value (which, like a filesystem stream, may expose a `path`
attribute).  Buffers and streams are opaque, identified by a tag. -/
inductive FileSrc where
  | path (s : JStr)
  | buffer (id : Nat)
  | stream (id : Nat) (srcPath : Option JStr)
deriving DecidableEq, Repr

/-- `MessageAttachment` collaborator: an opaque value carrying an optional
display name and an underlying file source (its `name` / `attachment`
attributes, the only ones this core reads). -/
structure MessageAttachment where
  name : Option JStr
  attachment : FileSrc
deriving DecidableEq, Repr

/-- A file-like input appearing in the `files` option: either a raw source
(string / buffer / stream, recognized by `APIMessage.resolveFile` as its own
attachment) or an object carrying `attachment` and optionally `name`
(`MessageAttachment` or a plain `FileOptions` object have the same two
attributes, so both are represented by `MessageAttachment`). -/
inductive FileLike where
  | src (f : FileSrc)
  | matt (a : MessageAttachment)
deriving DecidableEq, Repr

/-- `MessageEmbed` collaborator: an opaque rich-content item.  `data` stands
for its whole payload (the wire shape `_apiTransform` produces is a function
of it), `files` is its embedded file-reference list (`embed.files`). -/
structure MessageEmbed where
  data : Nat
  files : List FileLike
deriving DecidableEq, Repr

/-- Modelled from the spec: the rich-content-item collaborator exposes
`toWireShape() -> plain-object` (in the source, `new MessageEmbed(e)._apiTransform()`);
the wire shape is an opaque function of the embed's payload. -/
def apiTransform (e : MessageEmbed) : Nat := e.data

/-- An element of a `MessageAdditions` array: a rich-content item, an
attachment item, or anything else (`junk`, carrying its JS string coercion),
discriminated by `instanceof` in the source. -/
inductive Item where
  | embed (e : MessageEmbed)
  | attachment (a : MessageAttachment)
  | junk (s : JStr)
deriving DecidableEq, Repr

/-- `APIMessage.partitionMessageAdditions` (src lines 206-218): one pass over
the items, pushing embeds and attachments onto two accumulators. -/
def partitionMessageAdditions (items : List Item) : List MessageEmbed × List MessageAttachment :=
  items.foldl
    (fun acc item =>
      match item with
      | .embed e => (acc.1 ++ [e], acc.2)
      | .attachment a => (acc.1, acc.2 ++ [a])
      | .junk _ => acc)
    ([], [])

/-- A value that can sit in the (loosely typed) `content` slot of a message
options object: a string, an additions array, a single embed or attachment,
`undefined`, `null`, or some other object (`obj`, which JS stringifies as
`[object Object]`). -/
inductive ContentV where
  | str (l : JStr)
  | arr (xs : List Item)
  | emb (e : MessageEmbed)
  | att (a : MessageAttachment)
  | undef
  | jsNull
  | obj
deriving DecidableEq, Repr

/-- The `nonce` option: a string or an (integral) number. -/
inductive NonceV where
  | str (s : JStr)
  | num (n : Int)
deriving DecidableEq, Repr

/-- The split configuration object (`maxLength` / `char` / `prepend` /
`append` knobs, each optional). The separator is modelled as a single
character (the default and every use in the spec is `'\n'`). -/
structure SplitConf where
  maxLength : Option Nat := none
  char : Option Char := none
  prepend : Option JStr := none
  append : Option JStr := none
deriving DecidableEq, Repr

/-- The `split` option: `true`/`false` or a configuration object. -/
inductive SplitV where
  | flag (b : Bool)
  | conf (c : SplitConf)
deriving DecidableEq, Repr

/-- The `code` option: `true`/`false` or a language-tag string. -/
inductive CodeV where
  | flag (b : Bool)
  | lang (s : JStr)
deriving DecidableEq, Repr

/-- A user reference carrying an id. -/
structure UserRef where
  id : JStr
deriving DecidableEq, Repr

/-- A guild-member reference carrying a user id and an optional nickname. -/
structure MemberRef where
  id : JStr
  nickname : Option JStr
deriving DecidableEq, Repr

/-- The `reply` option (mention source): an id string, a user, a guild
member, or some value the user store cannot resolve. -/
inductive ReplyV where
  | idStr (s : JStr)
  | user (u : UserRef)
  | member (m : MemberRef)
  | unresolvable
deriving DecidableEq, Repr

/-- The canonical message-options record (`MessageOptions` /
`WebhookMessageOptions`): every field the source reads, each `Option`-valued
(`none` = key absent or key present holding `undefined`, except for
`content`, where present-`undefined` is `some .undef`, and for `embed`,
where `some none` models an explicit `null`). -/
structure MessageOptions where
  content : Option ContentV := none
  tts : Option Bool := none
  nonce : Option NonceV := none
  embed : Option (Option MessageEmbed) := none
  embeds : Option (List MessageEmbed) := none
  files : Option (List FileLike) := none
  reply : Option ReplyV := none
  split : Option SplitV := none
  code : Option CodeV := none
  disableEveryone : Option Bool := none
  username : Option JStr := none
  avatarURL : Option JStr := none
deriving DecidableEq, Repr

/-- An argument to `transformOptions` (either the `content` or the `options`
parameter): a loose content-like value or an options record. -/
inductive Arg where
  | val (v : ContentV)
  | rec' (o : MessageOptions)
deriving DecidableEq, Repr

/-- JS falsiness of an argument (`!options`): `undefined`, `null` and the
empty string are falsy; objects, arrays and non-empty strings are truthy. -/
def jsFalsy : Arg → Bool
  | .val .undef => true
  | .val .jsNull => true
  | .val (.str l) => l.isEmpty
  | _ => false

/-- `typeof content === 'object' && !(content instanceof Array)`:
records, embeds, attachments, other objects and `null` (whose JS `typeof` is
`'object'`) qualify; strings, arrays and `undefined` do not. -/
def isNonArrayObject : Arg → Bool
  | .rec' _ => true
  | .val (.emb _) => true
  | .val (.att _) => true
  | .val .obj => true
  | .val .jsNull => true
  | _ => false

/-- The value stored under the `content` key by `Object.assign({ content }, ...)`:
a loose value is stored as itself and a record as an opaque object. -/
def contentFieldOf : Arg → Option ContentV
  | .val v => some v
  | .rec' _ => some .obj

/-- The record-shaped view of the `options` argument in the final
`Object.assign({ content }, options, extra)`: a record is itself; any other
(truthy, non-embed, non-attachment, non-array) value contributes none of the
modelled keys (assigning a truthy string only adds numeric keys). -/
def recOf : Arg → MessageOptions
  | .rec' o => o
  | _ => {}

/-- `Object.assign(a, b)` restricted to the modelled keys: a key of `b`
wins whenever it is present. -/
def jsAssign (a b : MessageOptions) : MessageOptions where
  content := b.content <|> a.content
  tts := b.tts <|> a.tts
  nonce := b.nonce <|> a.nonce
  embed := b.embed <|> a.embed
  embeds := b.embeds <|> a.embeds
  files := b.files <|> a.files
  reply := b.reply <|> a.reply
  split := b.split <|> a.split
  code := b.code <|> a.code
  disableEveryone := b.disableEveryone <|> a.disableEveryone
  username := b.username <|> a.username
  avatarURL := b.avatarURL <|> a.avatarURL

/-- `APIMessage.transformOptions(content, options, extra, isWebhook)`
(src lines 229-258), the input normalizer. -/
def transformOptions (content options : Arg) (extra : MessageOptions) (isWebhook : Bool) :
    MessageOptions :=
  let moved := jsFalsy options && isNonArrayObject content
  let content' := if moved then Arg.val (.str []) else content
  let options' := if moved then content else options
  let options'' := if jsFalsy options' then Arg.rec' {} else options'
  match options'' with
  | .val (.emb e) =>
      jsAssign
        (if isWebhook then { content := contentFieldOf content', embeds := some [e] }
         else { content := contentFieldOf content', embed := some (some e) })
        extra
  | .val (.att a) =>
      jsAssign { content := contentFieldOf content', files := some [.matt a] } extra
  | .val (.arr xs) =>
      let p := partitionMessageAdditions xs
      jsAssign
        (if isWebhook then
          { content := contentFieldOf content', embeds := some p.1,
            files := some (p.2.map .matt) }
         else
          { content := contentFieldOf content',
            embed := p.1.head?.map some, files := some (p.2.map .matt) })
        extra
  | _ =>
      match content' with
      | .val (.arr xs) =>
          let p := partitionMessageAdditions xs
          if p.1.length ≠ 0 ∨ p.2.length ≠ 0 then
            jsAssign
              (if isWebhook then { embeds := some p.1, files := some (p.2.map .matt) }
               else { embed := p.1.head?.map some, files := some (p.2.map .matt) })
              extra
          else
            jsAssign (jsAssign { content := contentFieldOf content' } (recOf options'')) extra
      | _ =>
          jsAssign (jsAssign { content := contentFieldOf content' } (recOf options'')) extra

/-! ## Targets and client configuration -/

/-- The kind of a message target, replacing the source's `instanceof` checks:
`Webhook`/`WebhookClient` are webhook-style, `User`/`GuildMember` are
user-style, and the channel kinds carry the channel `type` discriminant
(`'dm'`, `'group'`, `'text'`). -/
inductive TargetKind where
  | webhook
  | user
  | member
  | dmChannel
  | groupDMChannel
  | textChannel
deriving DecidableEq, Repr

/-- A message target: its kind plus its display name (read only for
webhook-style targets, as the `username` default). -/
structure Target where
  kind : TargetKind
  name : Option JStr
deriving DecidableEq, Repr

/-- `APIMessage#isWebhook` (src lines 31-35). -/
def isWebhook (t : Target) : Bool := t.kind == .webhook

/-- `APIMessage#isUser` (src lines 42-46). -/
def isUser (t : Target) : Bool := t.kind == .user || t.kind == .member

/-- `this.target.type === 'dm'` for the modelled target kinds (only a DM
channel has channel type `'dm'`; users, webhooks and the other channels do
not). -/
def isDMType (t : Target) : Bool := t.kind == .dmChannel

/-- The client-level configuration the source reads
(`this.target.client.options.disableEveryone`). -/
structure ClientOptions where
  disableEveryone : Bool
deriving DecidableEq, Repr

/-! ## String helpers (content formatter) -/

/-- JS string coercion of a single additions-array element (`Array.prototype.join`
stringifies each element; plain objects give `[object Object]`). -/
def itemToStr : Item → JStr
  | .junk s => s
  | .embed _ => "[object Object]".toList
  | .attachment _ => "[object Object]".toList

/-- Modelled from the spec: `Util.resolveString` is not under `src/`; §4.2
step 1 requires coercing content to a string.  A string is itself, an array
joins its elements' coercions with newlines (JS `Array.prototype.join('\n')`),
and any other value coerces as JS `String()` does (`undefined` / `null` /
`[object Object]`). -/
def resolveString : ContentV → JStr
  | .str l => l
  | .arr xs => (xs.map itemToStr).intersperse ('\n' :: []) |>.flatten
  | .emb _ => "[object Object]".toList
  | .att _ => "[object Object]".toList
  | .obj => "[object Object]".toList
  | .undef => "undefined".toList
  | .jsNull => "null".toList

/-- Src line 56: `Util.resolveString(this.options.content == null ? '' : this.options.content)`
(`== null` catches both `null` and `undefined`, and an absent key reads as
`undefined`). -/
def contentString (o : MessageOptions) : JStr :=
  match o.content with
  | none => []
  | some .undef => []
  | some .jsNull => []
  | some v => resolveString v

/-- Src line 57: `typeof split !== 'undefined' && split !== false`. -/
def isSplitOf (o : MessageOptions) : Bool :=
  match o.split with
  | none => false
  | some (.flag b) => b
  | some (.conf _) => true

/-- Src line 58: `typeof code !== 'undefined' && code !== false` (note that
`true` and any string, the empty string included, activate code mode). -/
def isCodeOf (o : MessageOptions) : Bool :=
  match o.code with
  | none => false
  | some (.flag b) => b
  | some (.lang _) => true

/-- Src line 59: `Object.assign({}, this.options.split)` — a configuration
object is copied, `true` yields an empty configuration. -/
def splitConfOf (o : MessageOptions) : SplitConf :=
  match o.split with
  | some (.conf c) => c
  | _ => {}

/-- Src line 72: `typeof code === 'string' ? code : ''`. -/
def codeNameOf (o : MessageOptions) : JStr :=
  match o.code with
  | some (.lang s) => s
  | _ => []

/-- JS truthiness of the `reply` option (only the empty id string is falsy
among the modelled reference shapes). -/
def replyTruthy : ReplyV → Bool
  | .idStr l => !l.isEmpty
  | _ => true

/-- `this.options.reply instanceof GuildMember && this.options.reply.nickname`
(src line 64): a guild member whose nickname is set and non-empty. -/
def isNickMember : ReplyV → Bool
  | .member m =>
      match m.nickname with
      | some l => !l.isEmpty
      | none => false
  | _ => false

/-- Modelled from the spec: `this.target.client.users.resolveID` is not under
`src/`; per §6 the target collaborator exposes "a method to resolve a raw id
from a loosely-typed reference (id string, or an object carrying an id)",
returning `null` (here `none`) when the reference is unresolvable. -/
def resolveIDModel : ReplyV → Option JStr
  | .idStr s => some s
  | .user u => some u.id
  | .member m => some m.id
  | .unresolvable => none

/-- Src line 64: the mention token, a template literal in the source; a
failed resolution interpolates JS `null` as the text `null`. -/
def mkMentionPart (r : ReplyV) : JStr :=
  "<@".toList ++ (if isNickMember r then ['!'] else []) ++
    ((resolveIDModel r).getD "null".toList) ++ ">, ".toList

/-- Src line 62: the guard for computing a mention prefix. -/
def mentionGate (t : Target) (o : MessageOptions) : Bool :=
  (match o.reply with
   | some r => replyTruthy r
   | none => false) && !isUser t && !isDMType t

/-- The mention prefix (`mentionPart`, src lines 61-64): empty unless the
guard passes. -/
def mentionPartOf (t : Target) (o : MessageOptions) : JStr :=
  match o.reply with
  | some r =>
      if replyTruthy r && !isUser t && !isDMType t then mkMentionPart r else []
  | none => []

/-- `splitOptions.prepend || ''` / `splitOptions.append || ''`: `undefined`
and the empty string both give the empty string. -/
def jsOrEmpty (l : Option JStr) : JStr := l.getD []

/-- Src line 66: when a mention prefix exists and split mode is active, the
prefix is folded in front of the configured split `prepend`. -/
def splitConfAfterMention (t : Target) (o : MessageOptions) : SplitConf :=
  let base := splitConfOf o
  if mentionGate t o && isSplitOf o then
    { base with prepend := some (mentionPartOf t o ++ jsOrEmpty base.prepend) }
  else base

/-- The errors this core can raise: the nonce `RangeError('MESSAGE_NONCE_TYPE')`
(src line 107) and the splitter's too-long `RangeError` (spec §4.2 step 5 /
§7 `MessageTooLong`). -/
inductive JsErr where
  | rangeNonce
  | splitMaxLen
deriving DecidableEq, Repr

/-- Modelled from the spec: `Util.escapeMarkdown(content, true)` is not under
`src/`; per §4.2 step 3a it escapes backtick-sequences inside the body only.
A JS global replace of three consecutive backticks with a zero-width-space
separated variant, resuming after each match. -/
def escCodeBlock : List Char → List Char
  | '`' :: '`' :: '`' :: rest => '`' :: '\u200b' :: '`' :: '`' :: escCodeBlock rest
  | c :: rest => c :: escCodeBlock rest
  | [] => []

/-- Src line 86: `content.replace(/@(everyone|here)/g, '@​$1')`.  Since a
match's tail (`everyone`/`here`) contains no `@`, no later match can start
inside an earlier one, so the global replace is equivalent to this single
pass inserting U+200B after every `@` directly followed by `everyone` or
`here`. -/
def escEveryone : List Char → List Char
  | [] => []
  | c :: rest =>
      if c = '@' && ("everyone".toList.isPrefixOf rest || "here".toList.isPrefixOf rest) then
        c :: '\u200b' :: escEveryone rest
      else
        c :: escEveryone rest

/-- Split a character list at every occurrence of the separator (JS
`String.prototype.split` with a single-character separator: always returns at
least one piece, and a trailing separator yields a trailing empty piece). -/
def splitOnChar : List Char → Char → List (List Char)
  | [], _ => [[]]
  | c :: rest, sep =>
      if c = sep then [] :: splitOnChar rest sep
      else
        match splitOnChar rest sep with
        | [] => [[c]]
        | h :: t => (c :: h) :: t

/-- Greedy regrouping of split pieces: keep joining the next piece (with the
separator restored) while the current chunk stays within the limit, flushing
otherwise.  `cur` is the chunk being built. -/
def groupPieces (cur : List Char) (pieces : List (List Char)) (sep : Char) (maxLength : Nat) :
    List (List Char) :=
  match pieces with
  | [] => [cur]
  | p :: rest =>
      if (cur ++ sep :: p).length > maxLength then
        cur :: groupPieces p rest sep maxLength
      else
        groupPieces (cur ++ sep :: p) rest sep maxLength

/-- Modelled from the spec: `Util.splitMessage(text, splitOptions)` is not
under `src/`; per §4.2 step 5 it divides the text into chunks on the
configured separator (default newline) so that no chunk body exceeds the
configured character limit (default 2000), fails with the source's
`RangeError` when a single atomic piece already exceeds the limit, and
applies the configured `prepend`/`append` to every chunk. -/
def splitMessage (text : JStr) (c : SplitConf) : Except JsErr (List JStr) :=
  let maxLength := c.maxLength.getD 2000
  let sep := c.char.getD '\n'
  let pieces := splitOnChar text sep
  if pieces.any (fun q => q.length > maxLength) then .error .splitMaxLen
  else
    .ok ((groupPieces (pieces.headD []) pieces.tail sep maxLength).map
      (fun m => jsOrEmpty c.prepend ++ m ++ jsOrEmpty c.append))

/-- The result of `makeContent`: a single string, or a chunk sequence when
split mode produced one. -/
inductive ContentOut where
  | single (s : JStr)
  | multiple (xs : List JStr)
deriving DecidableEq, Repr

/-- Src lines 71-80: the content after the code fence (literal fence markers
around the escaped body, behind the mention prefix) or, without code mode,
after prepending the mention prefix. -/
def contentAfterFence (t : Target) (o : MessageOptions) : JStr :=
  let content := contentString o
  let mp := mentionPartOf t o
  if isCodeOf o then
    mp ++ "```".toList ++ codeNameOf o ++ '\n' :: escCodeBlock content ++ '\n' :: "```".toList
  else if !mp.isEmpty then mp ++ content
  else content

/-- Src lines 74-77: with code and split both active, the fence markers are
also folded onto the split `prepend`/`append` (after the mention prefix was
folded at line 66). -/
def splitConfFinal (t : Target) (o : MessageOptions) : SplitConf :=
  let am := splitConfAfterMention t o
  if isCodeOf o && isSplitOf o then
    { am with
      prepend := some (jsOrEmpty am.prepend ++ "```".toList ++ codeNameOf o ++ ['\n'])
      append := some ('\n' :: "```".toList ++ jsOrEmpty am.append) }
  else am

/-- Src lines 82-87: the effective disable-everyone setting (per-call
override, else client default). -/
def effectiveDisableEveryone (client : ClientOptions) (o : MessageOptions) : Bool :=
  match o.disableEveryone with
  | none => client.disableEveryone
  | some b => b

/-- The literal content string reaching src line 89 (handed to
`Util.splitMessage` when split mode is active): fence/mention processing,
then mention-escaping. -/
def preSplitContent (client : ClientOptions) (t : Target) (o : MessageOptions) : JStr :=
  if effectiveDisableEveryone client o then escEveryone (contentAfterFence t o)
  else contentAfterFence t o

/-- `APIMessage#makeContent` (src lines 52-95): resolve the content string,
compute the mention prefix, and if either is non-empty apply code fencing,
mention-escaping and splitting; return the single string otherwise. -/
def makeContent (client : ClientOptions) (t : Target) (o : MessageOptions) :
    Except JsErr ContentOut :=
  if contentString o = [] ∧ mentionPartOf t o = [] then
    .ok (.single (contentString o))
  else if isSplitOf o then
    (splitMessage (preSplitContent client t o) (splitConfFinal t o)).map ContentOut.multiple
  else
    .ok (.single (preSplitContent client t o))

/-! ## Payload resolver -/

/-- Whitespace skipped by JS `parseInt` (the common whitespace characters). -/
def isJsWS (c : Char) : Bool := c = ' ' || c = '\t' || c = '\n' || c = '\r'

/-- Value of a decimal digit run (most significant first). -/
def decVal (cs : List Char) : Nat :=
  cs.foldl (fun acc c => acc * 10 + (c.toNat - 48)) 0

/-- Hexadecimal digit test. -/
def isHexDigit (c : Char) : Bool :=
  c.isDigit || ('a' ≤ c && c ≤ 'f') || ('A' ≤ c && c ≤ 'F')

/-- Value of one hexadecimal digit. -/
def hexDigitVal (c : Char) : Nat :=
  if c.isDigit then c.toNat - 48
  else if 'a' ≤ c && c ≤ 'f' then c.toNat - 87
  else c.toNat - 55

/-- Value of a hexadecimal digit run. -/
def hexVal (cs : List Char) : Nat :=
  cs.foldl (fun acc c => acc * 16 + hexDigitVal c) 0

/-- JS `parseInt` on a string (src line 106 applies it to the nonce): skip
leading whitespace, read an optional sign, auto-detect a `0x`/`0X` prefix as
radix 16, then take the longest digit run; `NaN` (here `none`) when no digit
follows. -/
def jsParseIntStr (s : JStr) : Option Int :=
  let s1 := s.dropWhile isJsWS
  let signed : Bool × JStr :=
    match s1 with
    | '-' :: t => (true, t)
    | '+' :: t => (false, t)
    | _ => (false, s1)
  let body := signed.2
  let mag : Option Nat :=
    match body with
    | '0' :: x :: t =>
        if x = 'x' || x = 'X' then
          if (t.takeWhile isHexDigit).isEmpty then none
          else some (hexVal (t.takeWhile isHexDigit))
        else some (decVal (body.takeWhile Char.isDigit))
    | c :: _ => if c.isDigit then some (decVal (body.takeWhile Char.isDigit)) else none
    | [] => none
  mag.map (fun n => if signed.1 then -(n : Int) else (n : Int))

/-- JS `parseInt` on the nonce option (an integral number parses to itself). -/
def jsParseInt : NonceV → Option Int
  | .str s => jsParseIntStr s
  | .num n => some n

/-- Src lines 104-108: nonce validation — absent stays absent; present is
parsed, and `NaN` or a negative value raises the nonce `RangeError`. -/
def nonceResult (o : MessageOptions) : Except JsErr (Option Int) :=
  match o.nonce with
  | none => .ok none
  | some v =>
      match jsParseInt v with
      | none => .error .rangeNonce
      | some k => if k < 0 then .error .rangeNonce else .ok (some k)

/-- The embed-like values gathered by `resolveData`/`resolveFiles`
(src lines 110-117 and 143-150): all of `options.embeds` for a webhook
target, else the single truthy `options.embed`. -/
def embedLikesOf (t : Target) (o : MessageOptions) : List MessageEmbed :=
  if isWebhook t then
    match o.embeds with
    | some l => l
    | none => []
  else
    match o.embed with
    | some (some e) => [e]
    | _ => []

/-- The JSON-serializable body produced by `resolveData` (src lines 127-135):
`embed` distinguishes explicit `null` (`some none`) from absent (`none`). -/
structure RawMessageData where
  content : ContentOut
  tts : Bool
  nonce : Option Int
  embed : Option (Option Nat)
  embeds : List Nat
  username : Option JStr
  avatar_url : Option JStr
deriving DecidableEq, Repr

/-- `APIMessage#resolveData` (src lines 101-136). -/
def resolveData (client : ClientOptions) (t : Target) (o : MessageOptions) :
    Except JsErr RawMessageData :=
  match makeContent client t o with
  | .error e => .error e
  | .ok content =>
      match nonceResult o with
      | .error e => .error e
      | .ok nonce =>
          let embeds := (embedLikesOf t o).map apiTransform
          .ok
            { content := content
              tts := o.tts.getD false
              nonce := nonce
              embed :=
                match o.embed with
                | some none => some none
                | _ =>
                    match embeds.head? with
                    | some w => some (some w)
                    | none => none
              embeds := embeds
              username :=
                if isWebhook t then
                  match o.username with
                  | some l => if l.isEmpty then t.name else some l
                  | none => t.name
                else none
              avatar_url :=
                if isWebhook t then
                  match o.avatarURL with
                  | some l => if l.isEmpty then none else some l
                  | none => none
                else none }

/-! ## File resolver -/

/-- Modelled from the spec: `Util.basename` is not under `src/`; per §4.4 a
display name is derived from a string path. The final path segment. -/
def basename (s : JStr) : JStr :=
  ((splitOnChar s '/').getLast?.getD s)

/-- The `findName` helper inside `APIMessage.resolveFile` (src lines
174-184): a string is a path, an object with a `path` attribute uses it, and
otherwise the generic placeholder `file.jpg` applies. -/
def findName : FileSrc → JStr
  | .path s => basename s
  | .buffer _ => "file.jpg".toList
  | .stream _ (some p) => basename p
  | .stream _ none => "file.jpg".toList

/-- A resolved file descriptor (`{ attachment, name, file }`, src line 198).
The byte resource is opaque (`Nat`). -/
structure FileDesc where
  attachment : FileSrc
  name : JStr
  file : Nat
deriving DecidableEq, Repr

/-- `APIMessage.resolveFile` (src lines 170-199) minus the awaited byte
resolution, which is the external `DataResolver.resolveFile` collaborator
passed in as `dataResolve`: a raw string/buffer/stream is its own attachment
and names itself; an object uses its `attachment` and its truthy `name`
(falling back to `findName`). -/
def resolveFileModel (dataResolve : FileSrc → Nat) : FileLike → FileDesc
  | .src f => { attachment := f, name := findName f, file := dataResolve f }
  | .matt a =>
      { attachment := a.attachment
        name :=
          match a.name with
          | some n => if n.isEmpty then findName a.attachment else n
          | none => findName a.attachment
        file := dataResolve a.attachment }

/-- The discovery order of `resolveFiles` (src lines 152-160): explicit
`files` members first, then each embed-like's own `files`, in order. -/
def fileLikesOf (t : Target) (o : MessageOptions) : List FileLike :=
  (match o.files with
   | some l => l
   | none => []) ++
  (embedLikesOf t o).flatMap MessageEmbed.files

/-- Pair every list element with its position. -/
def withIdxFrom : Nat → List α → List (Nat × α)
  | _, [] => []
  | i, a :: as => (i, a) :: withIdxFrom (i + 1) as

/-- Read the completed results back in slot order: result `i`, then `i+1`,
..., `k` many; `none` if a slot never completed. -/
def gatherSlots (completed : List (Nat × α)) : Nat → Nat → Option (List α)
  | _, 0 => some []
  | i, k + 1 =>
      match completed.find? (fun p => p.1 == i) with
      | some p => (gatherSlots completed (i + 1) k).map (p.2 :: ·)
      | none => none

/-- `Promise.all` over already-started tasks, modelled operationally: each
task is indexed by its slot, tasks complete in order of their latency (the
scheduler is an insertion sort by latency, a stable completion order), and
the join reads the results back in slot order. -/
def promiseAll (latency : Nat → Nat) (xs : List α) : Option (List α) :=
  let completed :=
    (withIdxFrom 0 xs).insertionSort (fun a b => latency a.1 ≤ latency b.1)
  gatherSlots completed 0 xs.length

/-- `APIMessage#resolveFiles` (src lines 142-163): map every discovered
file-like through `resolveFile` and join with `Promise.all` under an
arbitrary completion order. -/
def resolveFilesSim (latency : Nat → Nat) (dataResolve : FileSrc → Nat)
    (t : Target) (o : MessageOptions) : Option (List FileDesc) :=
  promiseAll latency ((fileLikesOf t o).map (resolveFileModel dataResolve))

/-! ## Fixed environments used by concrete statements -/

/-- A client with the mention-disable default off. -/
def defaultClient : ClientOptions := { disableEveryone := false }

/-- A plain text-channel target. -/
def chanTarget : Target := { kind := .textChannel, name := none }

/-- A webhook target. -/
def whTarget : Target := { kind := .webhook, name := some "hook".toList }

/-! ## Claim C7: the partition algorithm -/

/-- The rich-content projection of an item. -/
def embedOf : Item → Option MessageEmbed
  | .embed e => some e
  | _ => none

/-- The attachment projection of an item. -/
def attOf : Item → Option MessageAttachment
  | .attachment a => some a
  | _ => none

lemma partition_foldl (items : List Item) (acc : List MessageEmbed × List MessageAttachment) :
    items.foldl
      (fun acc item =>
        match item with
        | .embed e => (acc.1 ++ [e], acc.2)
        | .attachment a => (acc.1, acc.2 ++ [a])
        | .junk _ => acc)
      acc =
    (acc.1 ++ items.filterMap embedOf, acc.2 ++ items.filterMap attOf) := by
  induction items generalizing acc with
  | nil => simp
  | cons x rest ih =>
      cases x <;> simp [ih, embedOf, attOf]

/-- Claim C7: `partitionMessageAdditions` returns the rich-content items in
first-seen order and the attachment items in first-seen order, silently
dropping every item that is neither; in particular
`[RichA, AttachB, RichC, "junk", AttachD]` partitions into
`([RichA, RichC], [AttachB, AttachD])`. -/
theorem partitionMessageAdditions_spec :
    (∀ items : List Item,
      partitionMessageAdditions items = (items.filterMap embedOf, items.filterMap attOf)) ∧
    partitionMessageAdditions
        [.embed ⟨1, []⟩, .attachment ⟨none, .buffer 0⟩, .embed ⟨2, []⟩,
         .junk "junk".toList, .attachment ⟨none, .buffer 1⟩] =
      ([⟨1, []⟩, ⟨2, []⟩], [⟨none, .buffer 0⟩, ⟨none, .buffer 1⟩]) := by
  constructor
  · intro items
    simpa using partition_foldl items ([], [])
  · rfl

/-! ## Claim C1: normalization is idempotent -/

/-- The externally observable agreement of two options records: the coerced
content string and every other field the downstream stages read. -/
def ObsEq (a b : MessageOptions) : Prop :=
  contentString a = contentString b ∧ a.tts = b.tts ∧ a.nonce = b.nonce ∧
  a.embed = b.embed ∧ a.embeds = b.embeds ∧ a.files = b.files ∧ a.reply = b.reply ∧
  a.split = b.split ∧ a.code = b.code ∧ a.disableEveryone = b.disableEveryone ∧
  a.username = b.username ∧ a.avatarURL = b.avatarURL

/-- The three user-level call shapes of `transformOptions` (content+options,
options-only — a record, a single embed, or a single attachment — and the
additions-array shape, as the options or as the content). -/
inductive CallShape : Arg → Arg → Prop
  | contentOptions (s : JStr) (o : MessageOptions) : CallShape (.val (.str s)) (.rec' o)
  | optionsOnlyRecord (o : MessageOptions) : CallShape (.rec' o) (.val .undef)
  | optionsOnlyEmbed (e : MessageEmbed) : CallShape (.val (.emb e)) (.val .undef)
  | optionsOnlyAttachment (a : MessageAttachment) : CallShape (.val (.att a)) (.val .undef)
  | additionsArray (s : JStr) (xs : List Item) : CallShape (.val (.str s)) (.val (.arr xs))
  | additionsContent (xs : List Item) : CallShape (.val (.arr xs)) (.val .undef)

lemma transformOptions_repass_eq (R : MessageOptions) :
    transformOptions (.rec' R) (.val .undef) {} false =
      { R with content := R.content <|> some (.str []) } := by
  simp [transformOptions, jsFalsy, isNonArrayObject, recOf, jsAssign, contentFieldOf]

lemma transformOptions_reentrant (R : MessageOptions) :
    ObsEq (transformOptions (.rec' R) (.val .undef) {} false) R := by
  rw [transformOptions_repass_eq]
  cases hR : R.content <;>
    simp [ObsEq, contentString, resolveString, hR]

/-- Claim C1: for every call of one of the three user-level shapes, feeding
the normalized record back through `transformOptions` as the sole argument
produces a record with the same externally observable fields. -/
theorem transform_idempotent (content options : Arg) (extra : MessageOptions) (w : Bool)
    (_hshape : CallShape content options) :
    ObsEq
      (transformOptions (.rec' (transformOptions content options extra w)) (.val .undef) {} false)
      (transformOptions content options extra w) :=
  transformOptions_reentrant _

/-- Witness for `transform_idempotent` at a concrete content+options call. -/
theorem transform_idempotent_witness :
    CallShape (.val (.str "hi".toList)) (.rec' { tts := some true }) ∧
    ObsEq
      (transformOptions
        (.rec' (transformOptions (.val (.str "hi".toList)) (.rec' { tts := some true }) {} false))
        (.val .undef) {} false)
      (transformOptions (.val (.str "hi".toList)) (.rec' { tts := some true }) {} false) :=
  ⟨CallShape.contentOptions _ _,
   transform_idempotent _ _ {} false (CallShape.contentOptions _ _)⟩

/-! ## Claim C6: content-as-list fallthrough -/

/-- Counterexample to claim C6: with options absent and content the list
`["junk"]` — whose partition yields two empty sequences — the canonical
record keeps the list itself as its content, and the coerced content string
is `"junk"`, not the empty string. -/
theorem content_array_fallthrough_counterexample :
    (transformOptions (.val (.arr [.junk "junk".toList])) (.val .undef) {} false).content =
      some (.arr [.junk "junk".toList]) ∧
    contentString (transformOptions (.val (.arr [.junk "junk".toList])) (.val .undef) {} false) =
      "junk".toList ∧
    "junk".toList ≠ ([] : JStr) := by
  refine ⟨rfl, rfl, ?_⟩
  decide

/-- Claim C6 as amended: when options is absent and content is a list whose
partition yields two empty sequences, normalization falls through to the
shallow-merge branch keeping the list itself as the content field; the
coerced content string is the non-item entries joined by newline — in
particular the empty string when the list is empty (but not only then: a
list of empty strings also coerces to an empty join). -/
theorem content_array_fallthrough (xs : List Item) (w : Bool)
    (h : partitionMessageAdditions xs = ([], [])) :
    (transformOptions (.val (.arr xs)) (.val .undef) {} w).content = some (.arr xs) ∧
    contentString (transformOptions (.val (.arr xs)) (.val .undef) {} w) =
      ((xs.map itemToStr).intersperse ('\n' :: [])).flatten ∧
    (xs = [] → contentString (transformOptions (.val (.arr xs)) (.val .undef) {} w) = []) := by
  have hrec : transformOptions (.val (.arr xs)) (.val .undef) {} w =
      { content := some (.arr xs) } := by
    simp [transformOptions, jsFalsy, isNonArrayObject, h, recOf, jsAssign, contentFieldOf]
  refine ⟨by rw [hrec], by rw [hrec]; rfl, ?_⟩
  rintro rfl
  rw [hrec]
  rfl

/-- Witness for `content_array_fallthrough` at the empty list. -/
theorem content_array_fallthrough_witness :
    partitionMessageAdditions [] = ([], []) ∧
    ((transformOptions (.val (.arr [])) (.val .undef) {} false).content = some (.arr []) ∧
      contentString (transformOptions (.val (.arr [])) (.val .undef) {} false) =
        ((([] : List Item).map itemToStr).intersperse ('\n' :: [])).flatten ∧
      (([] : List Item) = [] →
        contentString (transformOptions (.val (.arr [])) (.val .undef) {} false) = [])) :=
  ⟨rfl, content_array_fallthrough [] false rfl⟩

/-! ## Claim C5: the mention prefix and unresolvable sources -/

/-- The options record of the C5 counterexample: plain content plus an
unresolvable reply-mention source. -/
def oC5 : MessageOptions :=
  { content := some (.str "hi".toList), reply := some .unresolvable }

/-- Counterexample to claim C5: on a text channel with an unresolvable
mention source, `makeContent` raises no error at all — the failed resolution
interpolates as the literal text `null` inside the mention token. -/
theorem mention_unresolvable_counterexample :
    makeContent defaultClient chanTarget oC5 = .ok (.single "<@null>, hi".toList) ∧
    (makeContent defaultClient chanTarget oC5).isOk = true := by
  constructor
  · rfl
  · rfl

lemma mkMentionPart_ne_nil (r : ReplyV) : mkMentionPart r ≠ [] := by
  simp [mkMentionPart]

/-- Claim C5 as amended: with a truthy reply-mention source on a target that
is neither a user/member nor a DM channel, no error is raised even when the
source is unresolvable — the resolved id (or the literal `null` when
resolution fails) is interpolated into the mention token, which uses the
nickname form exactly when the source is a guild member with a non-empty
nickname and is followed by the separator `", "`. -/
theorem mention_prefix_format (client : ClientOptions) (t : Target) (r : ReplyV) (s : JStr)
    (hU : isUser t = false) (hD : isDMType t = false) (hr : replyTruthy r = true) :
    makeContent client t
        { content := some (.str s), reply := some r, disableEveryone := some false } =
      .ok (.single (mkMentionPart r ++ s)) ∧
    mkMentionPart r =
      "<@".toList ++ (if isNickMember r then ['!'] else []) ++
        ((resolveIDModel r).getD "null".toList) ++ ">, ".toList ∧
    (resolveIDModel r = none → mkMentionPart r = "<@null>, ".toList) := by
  refine ⟨?_, rfl, ?_⟩
  · have hmp : mentionPartOf t
        { content := some (.str s), reply := some r, disableEveryone := some false } =
        mkMentionPart r := by
      simp [mentionPartOf, hr, hU, hD]
    simp [makeContent, hmp, mkMentionPart_ne_nil, isSplitOf, preSplitContent,
      effectiveDisableEveryone, contentAfterFence, isCodeOf, contentString, resolveString,
      mkMentionPart_ne_nil r]
  · intro h
    cases r with
    | unresolvable => rfl
    | idStr s' => simp [resolveIDModel] at h
    | user u => simp [resolveIDModel] at h
    | member m => simp [resolveIDModel] at h

/-- Witness for `mention_prefix_format`: a guild member with a nickname,
mentioned from a text channel. -/
theorem mention_prefix_format_witness :
    isUser chanTarget = false ∧ isDMType chanTarget = false ∧
    replyTruthy (.member ⟨"42".toList, some "nick".toList⟩) = true ∧
    (makeContent defaultClient chanTarget
        { content := some (.str "yo".toList),
          reply := some (.member ⟨"42".toList, some "nick".toList⟩),
          disableEveryone := some false } =
      .ok (.single (mkMentionPart (.member ⟨"42".toList, some "nick".toList⟩) ++ "yo".toList)) ∧
    mkMentionPart (.member ⟨"42".toList, some "nick".toList⟩) =
      "<@".toList ++
        (if isNickMember (.member ⟨"42".toList, some "nick".toList⟩) then ['!'] else []) ++
        ((resolveIDModel (.member ⟨"42".toList, some "nick".toList⟩)).getD "null".toList) ++
        ">, ".toList ∧
    (resolveIDModel (.member ⟨"42".toList, some "nick".toList⟩) = none →
      mkMentionPart (.member ⟨"42".toList, some "nick".toList⟩) = "<@null>, ".toList)) :=
  ⟨rfl, rfl, rfl,
   mention_prefix_format defaultClient chanTarget _ "yo".toList rfl rfl rfl⟩

/-! ## Claim C3: nonce validation -/

lemma resolveData_of_content_ok (client : ClientOptions) (t : Target) (o : MessageOptions)
    (out : ContentOut) (h : makeContent client t o = .ok out) :
    resolveData client t o =
      match nonceResult o with
      | .error e => .error e
      | .ok nonce =>
          .ok
            { content := out
              tts := o.tts.getD false
              nonce := nonce
              embed :=
                match o.embed with
                | some none => some none
                | _ =>
                    match ((embedLikesOf t o).map apiTransform).head? with
                    | some w => some (some w)
                    | none => none
              embeds := (embedLikesOf t o).map apiTransform
              username :=
                if isWebhook t then
                  match o.username with
                  | some l => if l.isEmpty then t.name else some l
                  | none => t.name
                else none
              avatar_url :=
                if isWebhook t then
                  match o.avatarURL with
                  | some l => if l.isEmpty then none else some l
                  | none => none
                else none } := by
  rw [resolveData, h]

/-- Claim C3: when the nonce option is present (and content formatting
itself succeeds), `resolveData` fails with the nonce `RangeError` exactly
when `parseInt` does not yield a non-negative integer; a parsed non-negative
value lands in the payload; an unset nonce yields an absent payload nonce
and no error.  `"5"` parses to `5`, `"-1"` to `-1` (rejected), `"abc"` to
`NaN`. -/
theorem resolveData_nonce_spec :
    (∀ (client : ClientOptions) (t : Target) (o : MessageOptions) (v : NonceV),
      o.nonce = some v → (makeContent client t o).isOk = true →
      ((resolveData client t o = .error .rangeNonce) ↔
        (jsParseInt v = none ∨ ∃ k, jsParseInt v = some k ∧ k < 0))) ∧
    (∀ (client : ClientOptions) (t : Target) (o : MessageOptions) (v : NonceV) (k : Int),
      o.nonce = some v → (makeContent client t o).isOk = true →
      jsParseInt v = some k → 0 ≤ k →
      (resolveData client t o).map RawMessageData.nonce = .ok (some k)) ∧
    (∀ (client : ClientOptions) (t : Target) (o : MessageOptions),
      o.nonce = none → (makeContent client t o).isOk = true →
      (resolveData client t o).map RawMessageData.nonce = .ok none) ∧
    jsParseInt (.str "5".toList) = some 5 ∧
    jsParseInt (.str "-1".toList) = some (-1) ∧
    jsParseInt (.str "abc".toList) = none := by
  have hok : ∀ (client : ClientOptions) (t : Target) (o : MessageOptions),
      (makeContent client t o).isOk = true → ∃ out, makeContent client t o = .ok out := by
    intro client t o h
    cases hmc : makeContent client t o with
    | ok out => exact ⟨out, rfl⟩
    | error e => rw [hmc] at h; simp [Except.isOk, Except.toBool] at h
  have hnr : ∀ (o : MessageOptions) (v : NonceV), o.nonce = some v →
      nonceResult o =
        match jsParseInt v with
        | none => Except.error JsErr.rangeNonce
        | some k => if k < 0 then Except.error JsErr.rangeNonce else Except.ok (some k) := by
    intro o v hv
    unfold nonceResult
    rw [hv]
  have hnr0 : ∀ o : MessageOptions, o.nonce = none → nonceResult o = .ok none := by
    intro o hv
    unfold nonceResult
    rw [hv]
  refine ⟨?_, ?_, ?_, by decide, by decide, by decide⟩
  · intro client t o v hv hmc
    obtain ⟨out, hout⟩ := hok client t o hmc
    rw [resolveData_of_content_ok client t o out hout, hnr o v hv]
    cases hp : jsParseInt v with
    | none => simp
    | some k =>
        by_cases hk : k < 0 <;> simp [hp, hk]
  · intro client t o v k hv hmc hp hk
    obtain ⟨out, hout⟩ := hok client t o hmc
    rw [resolveData_of_content_ok client t o out hout, hnr o v hv, hp]
    simp [not_lt.mpr hk, Except.map]
  · intro client t o hv hmc
    obtain ⟨out, hout⟩ := hok client t o hmc
    rw [resolveData_of_content_ok client t o out hout, hnr0 o hv]
    simp [Except.map]

/-- The options record of the C3 witness: a `"-1"` nonce. -/
def oC3 : MessageOptions := { nonce := some (.str "-1".toList) }

/-- Witness for `resolveData_nonce_spec`: the `"-1"` nonce is rejected. -/
theorem resolveData_nonce_spec_witness :
    oC3.nonce = some (.str "-1".toList) ∧
    (makeContent defaultClient chanTarget oC3).isOk = true ∧
    ((resolveData defaultClient chanTarget oC3 = .error .rangeNonce) ↔
      (jsParseInt (.str "-1".toList) = none ∨
        ∃ k, jsParseInt (.str "-1".toList) = some k ∧ k < 0)) :=
  ⟨rfl, by decide,
   resolveData_nonce_spec.1 defaultClient chanTarget oC3 _ rfl (by decide)⟩

/-! ## Claim C2: single-vs-list target policy -/

lemma partition_map_embed (xs : List MessageEmbed) :
    partitionMessageAdditions (xs.map Item.embed) = (xs, []) := by
  unfold partitionMessageAdditions
  rw [partition_foldl]
  simp only [List.nil_append, Prod.mk.injEq]
  constructor
  · induction xs with
    | nil => rfl
    | cons e rest ih => simp [embedOf, ih]
  · induction xs with
    | nil => rfl
    | cons e rest ih => simp [attOf, ih]

lemma transform_embeds_webhook (xs : List MessageEmbed) (s : JStr) :
    transformOptions (.val (.str s)) (.val (.arr (xs.map Item.embed))) {} true =
      { content := some (.str s), embeds := some xs, files := some [] } := by
  simp [transformOptions, jsFalsy, isNonArrayObject, partition_map_embed, jsAssign,
    contentFieldOf]

lemma transform_embeds_channel (xs : List MessageEmbed) (s : JStr) :
    transformOptions (.val (.str s)) (.val (.arr (xs.map Item.embed))) {} false =
      { content := some (.str s), embed := xs.head?.map some, files := some [] } := by
  simp [transformOptions, jsFalsy, isNonArrayObject, partition_map_embed, jsAssign,
    contentFieldOf]

lemma makeContent_ok_of_no_split (client : ClientOptions) (t : Target) (o : MessageOptions)
    (h : isSplitOf o = false) : ∃ out, makeContent client t o = .ok out := by
  unfold makeContent
  split
  · exact ⟨_, rfl⟩
  · simp [h]

/-- Claim C2: for any list of rich-content items passed as the options
argument, a webhook target's payload carries the whole wire list in order,
while a non-webhook target's payload carries only the first item's wire
shape, with no error raised. -/
theorem single_vs_list (client : ClientOptions) (tw tc : Target)
    (xs : List MessageEmbed) (s : JStr)
    (hw : isWebhook tw = true) (hc : isWebhook tc = false) :
    (resolveData client tw
        (transformOptions (.val (.str s)) (.val (.arr (xs.map Item.embed))) {} true)).map
        RawMessageData.embeds =
      .ok (xs.map apiTransform) ∧
    (resolveData client tc
        (transformOptions (.val (.str s)) (.val (.arr (xs.map Item.embed))) {} false)).map
        RawMessageData.embeds =
      .ok ((xs.take 1).map apiTransform) := by
  constructor
  · rw [transform_embeds_webhook]
    obtain ⟨out, hout⟩ :=
      makeContent_ok_of_no_split client tw
        { content := some (.str s), embeds := some xs, files := some [] } rfl
    rw [resolveData_of_content_ok _ _ _ _ hout]
    simp [nonceResult, embedLikesOf, hw, Except.map]
  · rw [transform_embeds_channel]
    obtain ⟨out, hout⟩ :=
      makeContent_ok_of_no_split client tc
        { content := some (.str s), embed := xs.head?.map some, files := some [] } rfl
    rw [resolveData_of_content_ok _ _ _ _ hout]
    cases xs with
    | nil => simp [nonceResult, embedLikesOf, hc, Except.map]
    | cons e rest => simp [nonceResult, embedLikesOf, hc, Except.map]

/-- Witness for `single_vs_list`: three embeds to a webhook and to a text
channel. -/
theorem single_vs_list_witness :
    isWebhook whTarget = true ∧ isWebhook chanTarget = false ∧
    ((resolveData defaultClient whTarget
        (transformOptions (.val (.str "hey".toList))
          (.val (.arr ([⟨1, []⟩, ⟨2, []⟩, ⟨3, []⟩].map Item.embed))) {} true)).map
        RawMessageData.embeds =
      .ok ([⟨1, []⟩, ⟨2, []⟩, ⟨3, []⟩].map apiTransform) ∧
    (resolveData defaultClient chanTarget
        (transformOptions (.val (.str "hey".toList))
          (.val (.arr ([⟨1, []⟩, ⟨2, []⟩, ⟨3, []⟩].map Item.embed))) {} false)).map
        RawMessageData.embeds =
      .ok (([⟨1, []⟩, ⟨2, []⟩, ⟨3, []⟩].take 1).map apiTransform)) :=
  ⟨rfl, rfl,
   single_vs_list defaultClient whTarget chanTarget [⟨1, []⟩, ⟨2, []⟩, ⟨3, []⟩]
     "hey".toList rfl rfl⟩

/-! ## Claim C8: mention-escaping -/

/-- A scan for a bare `@everyone`/`@here` occurrence starting at any
position. -/
def hasBare (l : List Char) : Bool :=
  match l with
  | [] => false
  | c :: rest =>
      (decide (c = '@') &&
        ("everyone".toList.isPrefixOf rest || "here".toList.isPrefixOf rest)) ||
      hasBare rest

lemma nil_isPrefixOf (l : List Char) : ([] : List Char).isPrefixOf l = true := by
  cases l <;> rfl

lemma escEveryone_isPrefixOf :
    ∀ p : List Char, (∀ c ∈ p, c ≠ '@') →
      ∀ X : List Char, p.isPrefixOf (escEveryone X) = p.isPrefixOf X := by
  intro p
  induction p with
  | nil => intro _ X; rw [nil_isPrefixOf, nil_isPrefixOf]
  | cons a p' ih =>
      intro hp X
      have ha : a ≠ '@' := hp a (by simp)
      have hp' : ∀ c ∈ p', c ≠ '@' := fun c hc => hp c (by simp [hc])
      cases X with
      | nil => rfl
      | cons x X' =>
          simp only [escEveryone]
          by_cases hcond :
            (decide (x = '@') &&
              ("everyone".toList.isPrefixOf X' || "here".toList.isPrefixOf X')) = true
          · rw [if_pos hcond]
            have hx : x = '@' := by
              rcases Bool.and_eq_true_iff.mp hcond with ⟨h1, _⟩
              exact of_decide_eq_true h1
            subst hx
            show (a == '@' && _) = (a == '@' && _)
            have : (a == '@') = false := beq_eq_false_iff_ne.mpr ha
            rw [this]
            rfl
          · rw [if_neg hcond]
            show (a == x && p'.isPrefixOf (escEveryone X')) = (a == x && p'.isPrefixOf X')
            rw [ih hp' X']

lemma hasBare_zwsp_cons (E : List Char) : hasBare ('@' :: '\u200b' :: E) = hasBare E := by
  have h1 : ("everyone".toList.isPrefixOf ('\u200b' :: E)) = false := rfl
  have h2 : ("here".toList.isPrefixOf ('\u200b' :: E)) = false := rfl
  have h3 : (decide ('\u200b' = '@')) = false := rfl
  have h4 : (decide ('@' = '@')) = true := rfl
  show ((decide ('@' = '@') &&
      ("everyone".toList.isPrefixOf ('\u200b' :: E) || "here".toList.isPrefixOf ('\u200b' :: E))) ||
    hasBare ('\u200b' :: E)) = hasBare E
  rw [h1, h2, h4]
  show hasBare ('\u200b' :: E) = hasBare E
  show ((decide ('\u200b' = '@') &&
      ("everyone".toList.isPrefixOf E || "here".toList.isPrefixOf E)) || hasBare E) = hasBare E
  rw [h3]
  rfl

lemma everyone_no_at : ∀ c ∈ "everyone".toList, c ≠ '@' := by decide

lemma here_no_at : ∀ c ∈ "here".toList, c ≠ '@' := by decide

lemma hasBare_escEveryone (cs : List Char) : hasBare (escEveryone cs) = false := by
  induction cs with
  | nil => rfl
  | cons c rest ih =>
      simp only [escEveryone]
      by_cases hcond :
        (decide (c = '@') &&
          ("everyone".toList.isPrefixOf rest || "here".toList.isPrefixOf rest)) = true
      · rw [if_pos hcond]
        have hc : c = '@' := by
          rcases Bool.and_eq_true_iff.mp hcond with ⟨h1, _⟩
          exact of_decide_eq_true h1
        subst hc
        rw [hasBare_zwsp_cons, ih]
      · rw [if_neg hcond]
        show ((decide (c = '@') &&
            ("everyone".toList.isPrefixOf (escEveryone rest) ||
              "here".toList.isPrefixOf (escEveryone rest))) || hasBare (escEveryone rest)) = false
        rw [escEveryone_isPrefixOf "everyone".toList everyone_no_at rest,
          escEveryone_isPrefixOf "here".toList here_no_at rest, ih,
          Bool.eq_false_iff.mpr hcond]
        rfl

lemma escEveryone_idem (cs : List Char) : escEveryone (escEveryone cs) = escEveryone cs := by
  induction cs with
  | nil => rfl
  | cons c rest ih =>
      simp only [escEveryone]
      by_cases hcond :
        (decide (c = '@') &&
          ("everyone".toList.isPrefixOf rest || "here".toList.isPrefixOf rest)) = true
      · rw [if_pos hcond]
        have hc : c = '@' := by
          rcases Bool.and_eq_true_iff.mp hcond with ⟨h1, _⟩
          exact of_decide_eq_true h1
        subst hc
        show escEveryone ('@' :: '\u200b' :: escEveryone rest) =
          '@' :: '\u200b' :: escEveryone rest
        have h1 : ("everyone".toList.isPrefixOf ('\u200b' :: escEveryone rest)) = false := rfl
        have h2 : ("here".toList.isPrefixOf ('\u200b' :: escEveryone rest)) = false := rfl
        simp only [escEveryone, h1, h2]
        rw [if_neg (by simp), if_neg (by simp), ih]
      · rw [if_neg hcond]
        simp only [escEveryone]
        rw [escEveryone_isPrefixOf "everyone".toList everyone_no_at rest,
          escEveryone_isPrefixOf "here".toList here_no_at rest]
        rw [if_neg (by rw [Bool.eq_false_iff.mpr hcond]; simp), ih]

lemma hasBare_of_infix (l : List Char)
    (h : ("@everyone".toList <:+: l) ∨ ("@here".toList <:+: l)) : hasBare l = true := by
  induction l with
  | nil =>
      rcases h with h | h
      · have := List.eq_nil_of_infix_nil h
        simp at this
      · have := List.eq_nil_of_infix_nil h
        simp at this
  | cons c rest ih =>
      have hevs : "@everyone".toList = '@' :: "everyone".toList := by decide
      have hhes : "@here".toList = '@' :: "here".toList := by decide
      rcases h with h | h
      · rcases List.infix_cons_iff.mp h with h1 | h1
        · rw [hevs] at h1
          rcases List.cons_prefix_cons.mp h1 with ⟨hc, htail⟩
          subst hc
          show ((decide ('@' = '@') &&
              ("everyone".toList.isPrefixOf rest || "here".toList.isPrefixOf rest)) ||
            hasBare rest) = true
          rw [List.isPrefixOf_iff_prefix.mpr htail]
          rfl
        · show (_ || hasBare rest) = true
          rw [ih (Or.inl h1)]
          simp
      · rcases List.infix_cons_iff.mp h with h1 | h1
        · rw [hhes] at h1
          rcases List.cons_prefix_cons.mp h1 with ⟨hc, htail⟩
          subst hc
          show ((decide ('@' = '@') &&
              ("everyone".toList.isPrefixOf rest || "here".toList.isPrefixOf rest)) ||
            hasBare rest) = true
          rw [List.isPrefixOf_iff_prefix.mpr htail]
          simp
        · show (_ || hasBare rest) = true
          rw [ih (Or.inr h1)]
          simp

/-- Claim C8: with the effective disable-everyone setting on, the escaping
applied by `makeContent` leaves no bare `@everyone`/`@here` in its output,
is idempotent, is case-sensitive (`"@Everyone hi"` is untouched while
`"@everyone hi"` gains a zero-width space after the `@`), and is exactly
what `makeContent` applies to plain content. -/
theorem mention_escaping_spec :
    (∀ cs : List Char,
      ¬ ("@everyone".toList <:+: escEveryone cs) ∧ ¬ ("@here".toList <:+: escEveryone cs)) ∧
    (∀ cs : List Char, escEveryone (escEveryone cs) = escEveryone cs) ∧
    escEveryone "@Everyone hi".toList = "@Everyone hi".toList ∧
    escEveryone "@everyone hi".toList = "@\u200beveryone hi".toList ∧
    (∀ s : JStr,
      makeContent defaultClient chanTarget
          { content := some (.str s), disableEveryone := some true } =
        .ok (.single (escEveryone s))) := by
  refine ⟨?_, escEveryone_idem, by decide, by decide, ?_⟩
  · intro cs
    constructor
    · intro h
      have := hasBare_of_infix _ (Or.inl h)
      rw [hasBare_escEveryone] at this
      exact Bool.false_ne_true this
    · intro h
      have := hasBare_of_infix _ (Or.inr h)
      rw [hasBare_escEveryone] at this
      exact Bool.false_ne_true this
  · intro s
    by_cases hs : s = []
    · subst hs
      rfl
    · simp [makeContent, contentString, resolveString, mentionPartOf, hs, isSplitOf,
        preSplitContent, effectiveDisableEveryone, contentAfterFence, isCodeOf]

/-! ## Splitter lemmas (claims C4 and C10) -/

lemma splitOnChar_ne_nil (l : JStr) (sep : Char) :
    ∃ h t, splitOnChar l sep = h :: t := by
  cases l with
  | nil => exact ⟨[], [], rfl⟩
  | cons c rest =>
      unfold splitOnChar
      by_cases hc : c = sep
      · rw [if_pos hc]
        exact ⟨[], splitOnChar rest sep, rfl⟩
      · rw [if_neg hc]
        obtain ⟨h, t, hs⟩ := splitOnChar_ne_nil rest sep
        rw [hs]
        exact ⟨c :: h, t, rfl⟩

lemma splitOnChar_append (a b : JStr) (sep : Char) (hsep : sep ∉ a) :
    ∀ h t, splitOnChar b sep = h :: t → splitOnChar (a ++ b) sep = (a ++ h) :: t := by
  induction a with
  | nil => intro h t hb; simpa using hb
  | cons c a' ih =>
      intro h t hb
      have hc : c ≠ sep := by
        intro e
        exact hsep (by simp [e])
      have hs' : sep ∉ a' := fun hm => hsep (by simp [hm])
      show splitOnChar (c :: (a' ++ b)) sep = ((c :: a') ++ h) :: t
      unfold splitOnChar
      rw [if_neg hc, ih hs' h t hb]
      rfl

lemma groupPieces_head (pieces : List JStr) (cur : JStr) (sep : Char) (m : Nat) :
    ∃ t, (groupPieces cur pieces sep m).head? = some (cur ++ t) := by
  induction pieces generalizing cur with
  | nil => exact ⟨[], by simp [groupPieces]⟩
  | cons p rest ih =>
      unfold groupPieces
      by_cases hc : (cur ++ sep :: p).length > m
      · rw [if_pos hc]
        exact ⟨[], by simp⟩
      · rw [if_neg hc]
        obtain ⟨t, ht⟩ := ih (cur ++ sep :: p)
        refine ⟨sep :: p ++ t, ?_⟩
        rw [ht]
        simp

lemma splitMessage_eq_ok (text : JStr) (conf : SplitConf) (chunks : List JStr)
    (h : splitMessage text conf = .ok chunks) :
    ∃ p0 t0, splitOnChar text (conf.char.getD '\n') = p0 :: t0 ∧
      chunks =
        (groupPieces p0 t0 (conf.char.getD '\n') (conf.maxLength.getD 2000)).map
          (fun g => jsOrEmpty conf.prepend ++ g ++ jsOrEmpty conf.append) := by
  obtain ⟨p0, t0, hsp⟩ := splitOnChar_ne_nil text (conf.char.getD '\n')
  refine ⟨p0, t0, hsp, ?_⟩
  simp only [splitMessage, hsp] at h
  by_cases hlong :
      ((p0 :: t0).any fun q => decide (q.length > conf.maxLength.getD 2000)) = true
  · rw [if_pos hlong] at h
    cases h
  · rw [if_neg hlong] at h
    injection h with h'
    rw [← h']
    simp

/-! ## Claim C4: code fence plus split -/

/-- Options with code-fence mode and split mode both active: content `s`,
language `lang`, split limit `m`. -/
def codeSplitOpts (s lang : JStr) (m : Nat) : MessageOptions :=
  { content := some (.str s), code := some (.lang lang),
    split := some (.conf { maxLength := some m }), disableEveryone := some false }

lemma makeContent_code_split (client : ClientOptions) (t : Target) (s lang : JStr) (m : Nat)
    (hs : s ≠ []) :
    makeContent client t (codeSplitOpts s lang m) =
      (splitMessage ("```".toList ++ lang ++ '\n' :: (escCodeBlock s ++ '\n' :: "```".toList))
        { maxLength := some m, char := none,
          prepend := some ("```".toList ++ lang ++ ['\n']),
          append := some ('\n' :: "```".toList) }).map ContentOut.multiple := by
  simp [makeContent, codeSplitOpts, contentString, resolveString, mentionPartOf, isSplitOf, hs,
    preSplitContent, effectiveDisableEveryone, contentAfterFence, isCodeOf, codeNameOf,
    splitConfFinal, splitConfAfterMention, splitConfOf, mentionGate, jsOrEmpty]

/-- The concrete options of the C4 counterexample: content `"aaa\nbbb"`,
language `"js"`, split limit 10. -/
def oC4 : MessageOptions := codeSplitOpts "aaa\nbbb".toList "js".toList 10

/-- Counterexample to claim C4: with code and split both active the fence
markers are NOT removed from the literal content string handed to the
splitter — the literal still carries them (so the first chunk begins with a
doubled fence-open). -/
theorem code_split_fence_in_literal_counterexample :
    ("```".toList <:+: preSplitContent defaultClient chanTarget oC4) ∧
    makeContent defaultClient chanTarget oC4 =
      .ok (.multiple ["```js\n```js\naaa\n```".toList, "```js\nbbb\n```\n```".toList]) := by
  constructor
  · decide
  · rfl

/-- Claim C4 as amended: with code and split both active and non-empty
content, the fence markers are folded into the split `prepend`/`append`
configuration AND also remain in the literal content string handed to the
splitter; with no mention prefix and no user-configured `prepend`/`append`,
every returned chunk still independently starts with a fence-open carrying
the language tag and ends with a fence-close. -/
theorem code_split_chunks_fenced (client : ClientOptions) (t : Target) (s lang : JStr)
    (m : Nat) (hs : s ≠ []) :
    preSplitContent client t (codeSplitOpts s lang m) =
      "```".toList ++ lang ++ '\n' :: (escCodeBlock s ++ '\n' :: "```".toList) ∧
    (∀ chunks, makeContent client t (codeSplitOpts s lang m) = .ok (.multiple chunks) →
      ∀ c ∈ chunks, ∃ mid, c = "```".toList ++ lang ++ '\n' :: (mid ++ '\n' :: "```".toList)) := by
  constructor
  · simp [preSplitContent, codeSplitOpts, effectiveDisableEveryone, contentAfterFence,
      isCodeOf, codeNameOf, mentionPartOf, contentString, resolveString]
  · intro chunks hmk c hc
    rw [makeContent_code_split client t s lang m hs] at hmk
    have hsm : splitMessage
        ("```".toList ++ lang ++ '\n' :: (escCodeBlock s ++ '\n' :: "```".toList))
        { maxLength := some m, char := none,
          prepend := some ("```".toList ++ lang ++ ['\n']),
          append := some ('\n' :: "```".toList) } = .ok chunks := by
      cases hsp : splitMessage
          ("```".toList ++ lang ++ '\n' :: (escCodeBlock s ++ '\n' :: "```".toList))
          { maxLength := some m, char := none,
            prepend := some ("```".toList ++ lang ++ ['\n']),
            append := some ('\n' :: "```".toList) } with
      | error e => rw [hsp] at hmk; cases hmk
      | ok l =>
          rw [hsp] at hmk
          injection hmk with h'
          injection h' with h''
          rw [h'']
    obtain ⟨p0, t0, _, hchunks⟩ := splitMessage_eq_ok _ _ _ hsm
    rw [hchunks] at hc
    obtain ⟨g, _, hg⟩ := List.mem_map.mp hc
    refine ⟨g, ?_⟩
    rw [← hg]
    simp [jsOrEmpty]

/-- Witness for `code_split_chunks_fenced` at the counterexample input. -/
theorem code_split_chunks_fenced_witness :
    "aaa\nbbb".toList ≠ ([] : JStr) ∧
    (preSplitContent defaultClient chanTarget (codeSplitOpts "aaa\nbbb".toList "js".toList 10) =
      "```".toList ++ "js".toList ++
        '\n' :: (escCodeBlock "aaa\nbbb".toList ++ '\n' :: "```".toList) ∧
    (∀ chunks,
      makeContent defaultClient chanTarget (codeSplitOpts "aaa\nbbb".toList "js".toList 10) =
        .ok (.multiple chunks) →
      ∀ c ∈ chunks,
        ∃ mid, c = "```".toList ++ "js".toList ++ '\n' :: (mid ++ '\n' :: "```".toList))) :=
  ⟨by decide,
   code_split_chunks_fenced defaultClient chanTarget "aaa\nbbb".toList "js".toList 10
     (by decide)⟩

/-! ## Claim C10: split plus mention duplicates the mention prefix -/

/-- Options with a reply-mention source and split mode active (no code
mode, no user-configured prepend): content `s`, split limit `m`. -/
def mentionSplitOpts (r : ReplyV) (s : JStr) (m : Nat) : MessageOptions :=
  { content := some (.str s), reply := some r,
    split := some (.conf { maxLength := some m }), disableEveryone := some false }

lemma makeContent_mention_split (client : ClientOptions) (t : Target) (r : ReplyV) (s : JStr)
    (m : Nat) (hU : isUser t = false) (hD : isDMType t = false) (hr : replyTruthy r = true) :
    makeContent client t (mentionSplitOpts r s m) =
      (splitMessage (mkMentionPart r ++ s)
        { maxLength := some m, char := none,
          prepend := some (mkMentionPart r), append := none }).map ContentOut.multiple := by
  have hmpne : mkMentionPart r ≠ [] := mkMentionPart_ne_nil r
  have hmpE : (mkMentionPart r).isEmpty = false := by
    cases hmp : mkMentionPart r with
    | nil => exact absurd hmp hmpne
    | cons a l => rfl
  simp [makeContent, mentionSplitOpts, contentString, resolveString, mentionPartOf, isSplitOf,
    preSplitContent, effectiveDisableEveryone, contentAfterFence, isCodeOf, splitConfFinal,
    splitConfAfterMention, splitConfOf, mentionGate, jsOrEmpty, hU, hD, hr, hmpne, hmpE]

/-- Claim C10: when split mode is active, a mention prefix is produced and
code mode is off, the mention prefix is both folded into the split `prepend`
and left on the string handed to the splitter, so the first returned chunk
starts with the mention token twice. -/
theorem split_mention_duplicated (client : ClientOptions) (t : Target) (r : ReplyV) (s : JStr)
    (m : Nat) (hU : isUser t = false) (hD : isDMType t = false) (hr : replyTruthy r = true)
    (hsep : '\n' ∉ mkMentionPart r) :
    ∀ chunks, makeContent client t (mentionSplitOpts r s m) = .ok (.multiple chunks) →
      ∃ rest, chunks.head? = some (mkMentionPart r ++ (mkMentionPart r ++ rest)) := by
  intro chunks hmk
  rw [makeContent_mention_split client t r s m hU hD hr] at hmk
  have hsm : splitMessage (mkMentionPart r ++ s)
      { maxLength := some m, char := none,
        prepend := some (mkMentionPart r), append := none } = .ok chunks := by
    cases hsp : splitMessage (mkMentionPart r ++ s)
        { maxLength := some m, char := none,
          prepend := some (mkMentionPart r), append := none } with
    | error e => rw [hsp] at hmk; cases hmk
    | ok l =>
        rw [hsp] at hmk
        injection hmk with h'
        injection h' with h''
        rw [h'']
  obtain ⟨p0, t0, hsplit, hchunks⟩ := splitMessage_eq_ok _ _ _ hsm
  obtain ⟨h1, t1, hs1⟩ := splitOnChar_ne_nil s '\n'
  have hfull := splitOnChar_append (mkMentionPart r) s '\n' hsep h1 t1 hs1
  have hsplit2 : splitOnChar (mkMentionPart r ++ s) '\n' = p0 :: t0 := hsplit
  rw [hfull] at hsplit2
  injection hsplit2 with hp0 ht0
  have hchunks2 : chunks =
      (groupPieces p0 t0 '\n' m).map (fun g => mkMentionPart r ++ g ++ []) := hchunks
  obtain ⟨tg, htg⟩ := groupPieces_head t0 p0 '\n' m
  rw [hchunks2, List.head?_map, htg]
  refine ⟨h1 ++ tg, ?_⟩
  simp [← hp0]

/-- Witness for `split_mention_duplicated`: an id-string mention with split
limit 30 on `"hello\nworld"`.  At this input the split genuinely succeeds —
`makeContent` returns one chunk that starts with the mention token twice —
so the theorem's inner hypothesis is satisfied, not vacuous. -/
theorem split_mention_duplicated_witness :
    isUser chanTarget = false ∧ isDMType chanTarget = false ∧
    replyTruthy (.idStr "123".toList) = true ∧
    '\n' ∉ mkMentionPart (.idStr "123".toList) ∧
    makeContent defaultClient chanTarget
        (mentionSplitOpts (.idStr "123".toList) "hello\nworld".toList 30) =
      .ok (.multiple ["<@123>, <@123>, hello\nworld".toList]) ∧
    (∀ chunks,
      makeContent defaultClient chanTarget
          (mentionSplitOpts (.idStr "123".toList) "hello\nworld".toList 30) =
        .ok (.multiple chunks) →
      ∃ rest, chunks.head? =
        some (mkMentionPart (.idStr "123".toList) ++
          (mkMentionPart (.idStr "123".toList) ++ rest))) :=
  ⟨rfl, rfl, rfl, by decide, by rfl,
   split_mention_duplicated defaultClient chanTarget (.idStr "123".toList)
     "hello\nworld".toList 30 rfl rfl rfl (by decide)⟩

/-! ## Claim C9: file discovery and result order -/

lemma withIdxFrom_key_ge : ∀ (xs : List α) (i : Nat) (p : Nat × α),
    p ∈ withIdxFrom i xs → i ≤ p.1 := by
  intro xs
  induction xs with
  | nil => intro i p hp; cases hp
  | cons a as ih =>
      intro i p hp
      rcases List.mem_cons.mp hp with he | ht
      · rw [he]
      · have := ih (i + 1) p ht
        omega

lemma withIdxFrom_keys_nodup : ∀ (xs : List α) (i : Nat),
    ((withIdxFrom i xs).map Prod.fst).Nodup := by
  intro xs
  induction xs with
  | nil => intro i; simp [withIdxFrom]
  | cons a as ih =>
      intro i
      simp only [withIdxFrom, List.map_cons]
      rw [List.nodup_cons]
      constructor
      · intro hmem
        obtain ⟨p, hp, hfst⟩ := List.mem_map.mp hmem
        have := withIdxFrom_key_ge as (i + 1) p hp
        omega
      · exact ih (i + 1)

lemma withIdxFrom_get_mem : ∀ (xs : List α) (i k : Nat) (h : k < xs.length),
    (i + k, xs.get ⟨k, h⟩) ∈ withIdxFrom i xs := by
  intro xs
  induction xs with
  | nil => intro i k h; simp at h
  | cons a as ih =>
      intro i k h
      cases k with
      | zero => simp [withIdxFrom]
      | succ k' =>
          have h' : k' < as.length := by simpa using h
          have harith : i + (k' + 1) = (i + 1) + k' := by omega
          rw [harith]
          exact List.mem_cons_of_mem _ (ih (i + 1) k' h')

lemma find?_of_key_nodup : ∀ (l : List (Nat × α)) (j : Nat) (b : α),
    (l.map Prod.fst).Nodup → (j, b) ∈ l →
    l.find? (fun p => p.1 == j) = some (j, b) := by
  intro l
  induction l with
  | nil => intro j b _ hm; cases hm
  | cons p t ih =>
      intro j b hnd hm
      have hnd' : p.1 ∉ t.map Prod.fst ∧ (t.map Prod.fst).Nodup :=
        List.nodup_cons.mp (by simpa using hnd)
      by_cases hj : p.1 = j
      · have hfind : (p :: t).find? (fun q => q.1 == j) = some p :=
          List.find?_cons_of_pos _ (by simp [hj])
        rcases List.mem_cons.mp hm with he | ht
        · rw [hfind, ← he]
        · exfalso
          have : j ∈ t.map Prod.fst := List.mem_map.mpr ⟨(j, b), ht, rfl⟩
          exact hnd'.1 (hj ▸ this)
      · have hfind : (p :: t).find? (fun q => q.1 == j) = t.find? (fun q => q.1 == j) :=
          List.find?_cons_of_neg _ (by simp [hj])
        rcases List.mem_cons.mp hm with he | ht
        · exact absurd (by rw [← he]) hj
        · rw [hfind]
          exact ih j b hnd'.2 ht

lemma drop_eq_get_cons : ∀ (xs : List α) (i : Nat) (h : i < xs.length),
    xs.drop i = xs.get ⟨i, h⟩ :: xs.drop (i + 1) := by
  intro xs
  induction xs with
  | nil => intro i h; simp at h
  | cons a as ih =>
      intro i h
      cases i with
      | zero => rfl
      | succ i' =>
          have h' : i' < as.length := by simpa using h
          show as.drop i' = _
          rw [ih i' h']
          rfl

lemma gatherSlots_eq (xs : List α) (completed : List (Nat × α))
    (hperm : completed.Perm (withIdxFrom 0 xs)) :
    ∀ k i, i + k = xs.length → gatherSlots completed i k = some (xs.drop i) := by
  have hnodup : (completed.map Prod.fst).Nodup := by
    rw [List.Perm.nodup_iff (hperm.map Prod.fst)]
    exact withIdxFrom_keys_nodup xs 0
  intro k
  induction k with
  | zero =>
      intro i hik
      have hi : i = xs.length := by omega
      rw [hi, List.drop_length]
      rfl
  | succ k' ih =>
      intro i hik
      have hi : i < xs.length := by omega
      have hmem : (i, xs.get ⟨i, hi⟩) ∈ completed := by
        rw [hperm.mem_iff]
        have := withIdxFrom_get_mem xs 0 i hi
        simpa using this
      have hfind := find?_of_key_nodup completed i _ hnodup hmem
      show (match completed.find? (fun p => p.1 == i) with
        | some p => (gatherSlots completed (i + 1) k').map (p.2 :: ·)
        | none => none) = some (xs.drop i)
      rw [hfind, ih (i + 1) (by omega), drop_eq_get_cons xs i hi]
      rfl

lemma promiseAll_eq (latency : Nat → Nat) (xs : List α) :
    promiseAll latency xs = some xs := by
  have hperm : ((withIdxFrom 0 xs).insertionSort
      (fun a b => latency a.1 ≤ latency b.1)).Perm (withIdxFrom 0 xs) :=
    List.perm_insertionSort _ _
  have := gatherSlots_eq xs _ hperm xs.length 0 (by omega)
  simpa [promiseAll] using this

/-- Claim C9: `resolveFiles` discovers the explicit `files` members first,
then each embed-like's own file references in payload order, and the
returned descriptor sequence preserves that discovery order for every
completion order of the individual resolutions. -/
theorem resolveFiles_order_spec :
    (∀ (latency : Nat → Nat) (dataResolve : FileSrc → Nat) (t : Target) (o : MessageOptions),
      resolveFilesSim latency dataResolve t o =
        some ((fileLikesOf t o).map (resolveFileModel dataResolve))) ∧
    (∀ (t : Target) (o : MessageOptions),
      fileLikesOf t o =
        (match o.files with
         | some l => l
         | none => []) ++ (embedLikesOf t o).flatMap MessageEmbed.files) := by
  constructor
  · intro latency dataResolve t o
    exact promiseAll_eq latency _
  · intro t o
    rfl

end APIMsg
